import Mathlib

/-!
Shallow embedding of the AuditTrail smart contract
(src/smart-contracts/contracts/AuditTrail.sol) and proofs about it.

Modelling conventions:
* Addresses (`address`) are natural numbers; the zero address is `0`.
* Solidity `string` values are byte sequences, modelled as `List Nat`;
  `bytes(s).length` is the list length.
* `bytes32` hashes are natural numbers; the zero hash is `0`.
* `uint256` counters are natural numbers: the contract only increments
  them one at a time, so 2^256 wrap-around is unreachable in any
  execution we model and is not represented.
* The `keccak256` comparison in `verifyToken` is modelled as equality of
  the underlying byte sequences (keccak is collision-free in intent).
* `require` failures revert the whole call: an operation returns
  `Except Err …`, and the transition function `step` keeps the pre-state
  on an error, which is exactly the EVM revert semantics.
* `nonReentrant` is a no-op in this single-threaded model.  The contract
  events `SMEAuthorized` and `TransactionLogged` are modelled in an
  event log; OpenZeppelin's `Paused`/`Unpaused` events are not.
-/

namespace TokenAudit

abbrev Addr := Nat

abbrev Bytes := List Nat

/-- The `Transaction` struct of AuditTrail.sol. -/
structure Transaction where
  tokenId : Bytes
  smeAddress : Addr
  timestamp : Nat
  transactionType : Bytes
  amount : Nat
  dataHash : Nat
  ipfsHash : Bytes
  isVerified : Bool
  deriving DecidableEq

/-- Default-initialized `Transaction memory emptyTx` (Solidity zero values). -/
def emptyTransaction : Transaction :=
  { tokenId := [], smeAddress := 0, timestamp := 0, transactionType := [],
    amount := 0, dataHash := 0, ipfsHash := [], isVerified := false }

/-- Events emitted by the contract. -/
inductive Event where
  | smeAuthorized (sme : Addr) (status : Bool)
  | transactionLogged (tokenId : Bytes) (sme : Addr) (timestamp : Nat)
      (dataHash : Nat) (transactionType : Bytes) (amount : Nat)
  deriving DecidableEq

/-- Revert reasons, one per distinct `require` message reachable in the
contract (plus the OpenZeppelin `Ownable`/`Pausable` reasons). -/
inductive Err where
  | notOwner
  | invalidSMEAddress
  | notAuthorizedSME
  | pausedErr
  | notPausedErr
  | tokenIdEmpty
  | tokenIdTooLong
  | amountZero
  | tokenAlreadyExists
  | invalidDataHash
  | transactionTypeRequired
  | ipfsHashRequired
  | arraysLengthMismatch
  | emptyArrays
  | invalidExpectedHash
  deriving DecidableEq

/-- Contract storage: the mappings, counters and the Pausable flag,
plus the emitted event log and the Ownable owner. -/
structure AuditState where
  owner : Addr
  auditTrails : Addr → List Transaction
  tokenExists : Bytes → Bool
  authorizedSMEs : Addr → Bool
  tokenToSME : Bytes → Addr
  transactionCounts : Addr → Nat
  totalTransactions : Nat
  paused : Bool
  events : List Event

/-- `logTransaction`.  Checks run in the source's modifier order:
`onlyAuthorizedSME`, `nonReentrant` (no-op), `whenNotPaused`,
`validTokenId`, `validAmount`, then the body's four `require`s, then the
five storage writes and the event. `timestamp` models `block.timestamp`. -/
def logTransaction (s : AuditState) (sender : Addr) (tokenId transactionType : Bytes)
    (amount dataHash : Nat) (ipfsHash : Bytes) (timestamp : Nat) :
    Except Err (AuditState × Bool) :=
  if s.authorizedSMEs sender then
    if s.paused then .error .pausedErr
    else if tokenId.length = 0 then .error .tokenIdEmpty
    else if tokenId.length > 64 then .error .tokenIdTooLong
    else if amount = 0 then .error .amountZero
    else if s.tokenExists tokenId then .error .tokenAlreadyExists
    else if dataHash = 0 then .error .invalidDataHash
    else if transactionType.length = 0 then .error .transactionTypeRequired
    else if ipfsHash.length = 0 then .error .ipfsHashRequired
    else
      let newTx : Transaction :=
        { tokenId := tokenId, smeAddress := sender, timestamp := timestamp,
          transactionType := transactionType, amount := amount,
          dataHash := dataHash, ipfsHash := ipfsHash, isVerified := true }
      .ok ({ s with
              auditTrails :=
                Function.update s.auditTrails sender (s.auditTrails sender ++ [newTx]),
              tokenExists := Function.update s.tokenExists tokenId true,
              tokenToSME := Function.update s.tokenToSME tokenId sender,
              transactionCounts :=
                Function.update s.transactionCounts sender (s.transactionCounts sender + 1),
              totalTransactions := s.totalTransactions + 1,
              events := s.events ++
                [.transactionLogged tokenId sender timestamp dataHash transactionType amount] },
            true)
  else .error .notAuthorizedSME

/-- `authorizeSME` (onlyOwner). -/
def authorizeSME (s : AuditState) (sender : Addr) (sme : Addr) (status : Bool) :
    Except Err AuditState :=
  if sender = s.owner then
    if sme = 0 then .error .invalidSMEAddress
    else .ok { s with
                authorizedSMEs := Function.update s.authorizedSMEs sme status,
                events := s.events ++ [.smeAuthorized sme status] }
  else .error .notOwner

/-- The loop body of `batchAuthorizeSMEs`: the `require` inside the loop
reverts the whole call, so an error discards every earlier iteration. -/
def batchLoop (s : AuditState) : List (Addr × Bool) → Except Err AuditState
  | [] => .ok s
  | (a, b) :: rest =>
      if a = 0 then .error .invalidSMEAddress
      else batchLoop { s with
                        authorizedSMEs := Function.update s.authorizedSMEs a b,
                        events := s.events ++ [.smeAuthorized a b] } rest

/-- `batchAuthorizeSMEs` (onlyOwner). -/
def batchAuthorizeSMEs (s : AuditState) (sender : Addr)
    (smes : List Addr) (statuses : List Bool) : Except Err AuditState :=
  if sender = s.owner then
    if smes.length ≠ statuses.length then .error .arraysLengthMismatch
    else if smes.length = 0 then .error .emptyArrays
    else batchLoop s (smes.zip statuses)
  else .error .notOwner

/-- `pause` (onlyOwner; `_pause` has `whenNotPaused`). -/
def pause (s : AuditState) (sender : Addr) : Except Err AuditState :=
  if sender = s.owner then
    if s.paused then .error .pausedErr
    else .ok { s with paused := true }
  else .error .notOwner

/-- `unpause` (onlyOwner; `_unpause` has `whenPaused`). -/
def unpause (s : AuditState) (sender : Addr) : Except Err AuditState :=
  if sender = s.owner then
    if s.paused then .ok { s with paused := false }
    else .error .notPausedErr
  else .error .notOwner

/-- `getAuditTrail` (view). -/
def getAuditTrail (s : AuditState) (sme : Addr) : Except Err (List Transaction) :=
  if sme = 0 then .error .invalidSMEAddress
  else .ok (s.auditTrails sme)

/-- The linear scan of `verifyToken`: first transaction in the list whose
`tokenId` matches (keccak equality modelled as byte equality). -/
def findToken : List Transaction → Bytes → Option Transaction
  | [], _ => none
  | tx :: rest, t => if tx.tokenId = t then some tx else findToken rest t

/-- `verifyToken` (view, `validTokenId` modifier). -/
def verifyToken (s : AuditState) (tokenId : Bytes) (sme : Addr) :
    Except Err (Bool × Transaction) :=
  if tokenId.length = 0 then .error .tokenIdEmpty
  else if tokenId.length > 64 then .error .tokenIdTooLong
  else if sme = 0 then .error .invalidSMEAddress
  else match findToken (s.auditTrails sme) tokenId with
    | some tx => .ok (true, tx)
    | none => .ok (false, emptyTransaction)

/-- `getTransactionCount` (view). -/
def getTransactionCount (s : AuditState) (sme : Addr) : Except Err Nat :=
  if sme = 0 then .error .invalidSMEAddress
  else .ok (s.transactionCounts sme)

/-- `verifyDataIntegrity` (view, `validTokenId` modifier); composes
`this.verifyToken`. -/
def verifyDataIntegrity (s : AuditState) (tokenId : Bytes) (sme : Addr)
    (expectedHash : Nat) : Except Err Bool :=
  if tokenId.length = 0 then .error .tokenIdEmpty
  else if tokenId.length > 64 then .error .tokenIdTooLong
  else if sme = 0 then .error .invalidSMEAddress
  else if expectedHash = 0 then .error .invalidExpectedHash
  else match verifyToken s tokenId sme with
    | .ok (ex, tx) => if ex then .ok (decide (tx.dataHash = expectedHash)) else .ok false
    | .error e => .error e

/-- `getTransactionByTokenId` (view, `validTokenId` modifier). -/
def getTransactionByTokenId (s : AuditState) (tokenId : Bytes) :
    Except Err (Bool × Transaction) :=
  if tokenId.length = 0 then .error .tokenIdEmpty
  else if tokenId.length > 64 then .error .tokenIdTooLong
  else if s.tokenExists tokenId then verifyToken s tokenId (s.tokenToSME tokenId)
  else .ok (false, emptyTransaction)

/-- `isAuthorizedSME` (view). -/
def isAuthorizedSME (s : AuditState) (sme : Addr) : Bool :=
  s.authorizedSMEs sme

/-- `getTotalTransactions` (view). -/
def getTotalTransactions (s : AuditState) : Nat :=
  s.totalTransactions

/-- The mutating entry points of the contract, as abstract operations. -/
inductive Op where
  | log (sender : Addr) (tokenId transactionType : Bytes)
      (amount dataHash : Nat) (ipfsHash : Bytes) (timestamp : Nat)
  | authorize (sender sme : Addr) (status : Bool)
  | batchAuthorize (sender : Addr) (smes : List Addr) (statuses : List Bool)
  | pauseOp (sender : Addr)
  | unpauseOp (sender : Addr)

/-- One transaction against the contract: a revert leaves the state as it
was (EVM rollback). -/
def step (s : AuditState) : Op → AuditState
  | .log sender t ty am h ip ts =>
      match logTransaction s sender t ty am h ip ts with
      | .ok (s', _) => s'
      | .error _ => s
  | .authorize sender sme status =>
      match authorizeSME s sender sme status with
      | .ok s' => s'
      | .error _ => s
  | .batchAuthorize sender smes statuses =>
      match batchAuthorizeSMEs s sender smes statuses with
      | .ok s' => s'
      | .error _ => s
  | .pauseOp sender =>
      match pause s sender with
      | .ok s' => s'
      | .error _ => s
  | .unpauseOp sender =>
      match unpause s sender with
      | .ok s' => s'
      | .error _ => s

/-- The constructor: the deployer (`msg.sender`, never the zero address
on-chain) becomes owner and is auto-authorized. -/
def initState (deployer : Addr) : AuditState :=
  { owner := deployer,
    auditTrails := fun _ => [],
    tokenExists := fun _ => false,
    authorizedSMEs := Function.update (fun _ => false) deployer true,
    tokenToSME := fun _ => 0,
    transactionCounts := fun _ => 0,
    totalTransactions := 0,
    paused := false,
    events := [.smeAuthorized deployer true] }

/-- States reachable from deployment by any sequence of operations. -/
inductive Reachable (deployer : Addr) : AuditState → Prop where
  | init : Reachable deployer (initState deployer)
  | next {s : AuditState} (op : Op) :
      Reachable deployer s → Reachable deployer (step s op)

/-- The post-state written by a successful `logTransaction`. -/
def logPost (s : AuditState) (sender : Addr) (tokenId transactionType : Bytes)
    (amount dataHash : Nat) (ipfsHash : Bytes) (timestamp : Nat) : AuditState :=
  let newTx : Transaction :=
    { tokenId := tokenId, smeAddress := sender, timestamp := timestamp,
      transactionType := transactionType, amount := amount,
      dataHash := dataHash, ipfsHash := ipfsHash, isVerified := true }
  { s with
      auditTrails :=
        Function.update s.auditTrails sender (s.auditTrails sender ++ [newTx]),
      tokenExists := Function.update s.tokenExists tokenId true,
      tokenToSME := Function.update s.tokenToSME tokenId sender,
      transactionCounts :=
        Function.update s.transactionCounts sender (s.transactionCounts sender + 1),
      totalTransactions := s.totalTransactions + 1,
      events := s.events ++
        [.transactionLogged tokenId sender timestamp dataHash transactionType amount] }

/-- The post-state written by a successful `authorizeSME`. -/
def authPost (s : AuditState) (sme : Addr) (status : Bool) : AuditState :=
  { s with
      authorizedSMEs := Function.update s.authorizedSMEs sme status,
      events := s.events ++ [.smeAuthorized sme status] }

/-- Sequential authorization-flag writes of the batch loop. -/
def applyUpdates (f : Addr → Bool) : List (Addr × Bool) → (Addr → Bool)
  | [] => f
  | (a, b) :: rest => applyUpdates (Function.update f a b) rest

/-- A concrete deployment (deployer address 1) after one successful
`logTransaction` of token [84] by the deployer. -/
def s1 : AuditState :=
  step (initState 1) (Op.log 1 [84] [80] 100 5 [81] 0)

/-- A concrete deployment (deployer address 1) that the owner paused. -/
def sPaused : AuditState :=
  step (initState 1) (Op.pauseOp 1)

/-- The concrete record committed in `s1`. -/
def tx84 : Transaction :=
  { tokenId := [84], smeAddress := 1, timestamp := 0, transactionType := [80],
    amount := 100, dataHash := 5, ipfsHash := [81], isVerified := true }

/-- Invariant of every reachable contract state: the well-formedness and
consistency facts that the claims rest on. -/
structure Inv (s : AuditState) : Prop where
  zero_unauth : s.authorizedSMEs 0 = false
  principal_eq : ∀ p tx, tx ∈ s.auditTrails p → tx.smeAddress = p
  principal_nz : ∀ p tx, tx ∈ s.auditTrails p → p ≠ 0
  token_wf : ∀ p tx, tx ∈ s.auditTrails p →
    tx.tokenId.length ≠ 0 ∧ tx.tokenId.length ≤ 64
  flag_sound : ∀ t, s.tokenExists t = true →
    ∃ p tx, tx ∈ s.auditTrails p ∧ tx.tokenId = t
  flag_complete : ∀ p tx, tx ∈ s.auditTrails p → s.tokenExists tx.tokenId = true
  owner_idx : ∀ p tx, tx ∈ s.auditTrails p → s.tokenToSME tx.tokenId = p
  nodup_within : ∀ p, (s.auditTrails p).Pairwise fun a b => a.tokenId ≠ b.tokenId
  nodup_across : ∀ p q tx ty, p ≠ q → tx ∈ s.auditTrails p → ty ∈ s.auditTrails q →
    tx.tokenId ≠ ty.tokenId
  count_eq : ∀ p, s.transactionCounts p = (s.auditTrails p).length
  total_eq : ∀ S : Finset Addr, (∀ p, s.transactionCounts p ≠ 0 → p ∈ S) →
    s.totalTransactions = S.sum s.transactionCounts

/-! ### Helper lemmas about the linear scan -/

theorem findToken_mem {l : List Transaction} {t : Bytes} {tx : Transaction}
    (h : findToken l t = some tx) : tx ∈ l ∧ tx.tokenId = t := by
  induction l with
  | nil => simp [findToken] at h
  | cons hd tl ih =>
      by_cases hht : hd.tokenId = t
      · simp [findToken, hht] at h
        subst h
        exact ⟨List.mem_cons_self _ _, hht⟩
      · simp [findToken, hht] at h
        rcases ih h with ⟨hm, he⟩
        exact ⟨List.mem_cons_of_mem _ hm, he⟩

theorem findToken_eq_none {l : List Transaction} {t : Bytes}
    (h : ∀ tx ∈ l, tx.tokenId ≠ t) : findToken l t = none := by
  induction l with
  | nil => rfl
  | cons hd tl ih =>
      simp only [findToken, if_neg (h hd (List.mem_cons_self _ _))]
      exact ih fun tx hm => h tx (List.mem_cons_of_mem _ hm)

theorem findToken_unique {l : List Transaction} {t : Bytes} {tx : Transaction}
    (hnd : l.Pairwise fun a b => a.tokenId ≠ b.tokenId)
    (hm : tx ∈ l) (ht : tx.tokenId = t) : findToken l t = some tx := by
  induction l with
  | nil => cases hm
  | cons hd tl ih =>
      rcases List.mem_cons.mp hm with heq | hmem
      · subst heq
        simp [findToken, ht]
      · have hne : hd.tokenId ≠ t := by
          intro hcontra
          exact (List.pairwise_cons.mp hnd).1 tx hmem (hcontra.trans ht.symm)
        simp only [findToken, if_neg hne]
        exact ih (List.pairwise_cons.mp hnd).2 hmem

/-! ### Inversion of a successful `logTransaction` -/

theorem logTransaction_ok_inv {s : AuditState} {sender : Addr}
    {t ty : Bytes} {am dh : Nat} {ip : Bytes} {ts : Nat}
    {s' : AuditState} {b : Bool}
    (h : logTransaction s sender t ty am dh ip ts = .ok (s', b)) :
    s.authorizedSMEs sender = true ∧ s.paused = false ∧
    t.length ≠ 0 ∧ t.length ≤ 64 ∧ am ≠ 0 ∧
    s.tokenExists t = false ∧ dh ≠ 0 ∧ ty.length ≠ 0 ∧ ip.length ≠ 0 ∧
    b = true ∧ s' = logPost s sender t ty am dh ip ts := by
  unfold logTransaction at h
  split_ifs at h with h1 h2 h3 h4 h5 h6 h7 h8 h9
  simp only [Except.ok.injEq, Prod.mk.injEq] at h
  refine ⟨h1, by simpa using h2, h3, by omega, h5, by simpa using h6, h7, h8, h9,
    h.2.symm, ?_⟩
  rw [← h.1]; rfl

theorem logTransaction_ok_of_checks {s : AuditState} {sender : Addr}
    {t ty : Bytes} {am dh : Nat} {ip : Bytes} (ts : Nat)
    (h1 : s.authorizedSMEs sender = true) (h2 : s.paused = false)
    (h3 : t.length ≠ 0) (h4 : t.length ≤ 64) (h5 : am ≠ 0)
    (h6 : s.tokenExists t = false) (h7 : dh ≠ 0) (h8 : ty.length ≠ 0)
    (h9 : ip.length ≠ 0) :
    logTransaction s sender t ty am dh ip ts =
      .ok (logPost s sender t ty am dh ip ts, true) := by
  unfold logTransaction
  rw [if_pos h1, if_neg (by simp [h2]), if_neg h3,
    if_neg (by omega : ¬ t.length > 64), if_neg h5, if_neg (by simp [h6]),
    if_neg h7, if_neg h8, if_neg h9]
  rfl

/-! ### Characterization of `batchLoop` -/

theorem batchLoop_ok_of_nonzero {l : List (Addr × Bool)} :
    ∀ s : AuditState, (∀ ab ∈ l, ab.1 ≠ 0) →
    batchLoop s l = .ok { s with
      authorizedSMEs := applyUpdates s.authorizedSMEs l,
      events := s.events ++ l.map fun ab => Event.smeAuthorized ab.1 ab.2 } := by
  induction l with
  | nil => intro s _; simp [batchLoop, applyUpdates]
  | cons hd tl ih =>
      intro s hnz
      obtain ⟨a, b⟩ := hd
      have ha : a ≠ 0 := hnz (a, b) (List.mem_cons_self _ _)
      simp only [batchLoop, if_neg ha]
      rw [ih _ fun ab hm => hnz ab (List.mem_cons_of_mem _ hm)]
      simp [applyUpdates]

theorem applyUpdates_not_mem {l : List (Addr × Bool)} :
    ∀ (f : Addr → Bool) (a : Addr), (∀ ab ∈ l, ab.1 ≠ a) → applyUpdates f l a = f a := by
  induction l with
  | nil => intro f a _; rfl
  | cons hd tl ih =>
      intro f a hna
      obtain ⟨x, b⟩ := hd
      have hx : x ≠ a := hna (x, b) (List.mem_cons_self _ _)
      simp only [applyUpdates]
      rw [ih _ a fun ab hm => hna ab (List.mem_cons_of_mem _ hm),
        Function.update_noteq (Ne.symm hx)]

theorem batchLoop_ok_frame {l : List (Addr × Bool)} :
    ∀ {s s' : AuditState}, batchLoop s l = .ok s' →
    s'.owner = s.owner ∧ s'.auditTrails = s.auditTrails ∧
    s'.tokenExists = s.tokenExists ∧ s'.tokenToSME = s.tokenToSME ∧
    s'.transactionCounts = s.transactionCounts ∧
    s'.totalTransactions = s.totalTransactions ∧ s'.paused = s.paused ∧
    (s.authorizedSMEs 0 = false → s'.authorizedSMEs 0 = false) := by
  induction l with
  | nil =>
      intro s s' h
      simp only [batchLoop, Except.ok.injEq] at h
      subst h
      exact ⟨rfl, rfl, rfl, rfl, rfl, rfl, rfl, fun h => h⟩
  | cons hd tl ih =>
      intro s s' h
      obtain ⟨a, b⟩ := hd
      by_cases ha : a = 0
      · simp [batchLoop, ha] at h
      · simp only [batchLoop, if_neg ha] at h
        rcases ih h with ⟨h1, h2, h3, h4, h5, h6, h7, h8⟩
        refine ⟨h1, h2, h3, h4, h5, h6, h7, fun hz => h8 ?_⟩
        simpa [Function.update_noteq (Ne.symm ha)] using hz

/-! ### The reachability invariant -/

theorem inv_init {deployer : Addr} (hd : deployer ≠ 0) : Inv (initState deployer) := by
  refine ⟨?_, ?_, ?_, ?_, ?_, ?_, ?_, ?_, ?_, ?_, ?_⟩ <;>
    simp [initState, Function.update_noteq (Ne.symm hd)]

theorem inv_congr {s s' : AuditState} (hs : Inv s)
    (h1 : s'.auditTrails = s.auditTrails) (h2 : s'.tokenExists = s.tokenExists)
    (h3 : s'.tokenToSME = s.tokenToSME)
    (h4 : s'.transactionCounts = s.transactionCounts)
    (h5 : s'.totalTransactions = s.totalTransactions)
    (h6 : s'.authorizedSMEs 0 = false) : Inv s' := by
  refine ⟨h6, ?_, ?_, ?_, ?_, ?_, ?_, ?_, ?_, ?_, ?_⟩
  · rw [h1]; exact hs.principal_eq
  · rw [h1]; exact hs.principal_nz
  · rw [h1]; exact hs.token_wf
  · rw [h1, h2]; exact hs.flag_sound
  · rw [h1, h2]; exact hs.flag_complete
  · rw [h1, h3]; exact hs.owner_idx
  · rw [h1]; exact hs.nodup_within
  · rw [h1]; exact hs.nodup_across
  · rw [h1, h4]; exact hs.count_eq
  · rw [h4, h5]; exact hs.total_eq

theorem inv_logPost {s : AuditState} {sender : Addr} {t ty : Bytes}
    {am dh : Nat} {ip : Bytes} {ts : Nat} (hs : Inv s)
    (hauth : s.authorizedSMEs sender = true)
    (hlen : t.length ≠ 0) (hlen64 : t.length ≤ 64)
    (hfree : s.tokenExists t = false) :
    Inv (logPost s sender t ty am dh ip ts) := by
  have hsnz : sender ≠ 0 := by
    intro h
    rw [h, hs.zero_unauth] at hauth
    cases hauth
  set newTx : Transaction :=
    { tokenId := t, smeAddress := sender, timestamp := ts, transactionType := ty,
      amount := am, dataHash := dh, ipfsHash := ip, isVerified := true } with hnewTx
  have hmem : ∀ p tx, tx ∈ (logPost s sender t ty am dh ip ts).auditTrails p ↔
      (tx ∈ s.auditTrails p ∨ (p = sender ∧ tx = newTx)) := by
    intro p tx
    by_cases hp : p = sender
    · subst hp
      simp [logPost, Function.update_same, ← hnewTx]
    · simp [logPost, Function.update_noteq hp, hp]
  have hold_ne_t : ∀ p tx, tx ∈ s.auditTrails p → tx.tokenId ≠ t := by
    intro p tx hm hcontra
    rw [← hcontra, hs.flag_complete p tx hm] at hfree
    cases hfree
  refine ⟨hs.zero_unauth, ?_, ?_, ?_, ?_, ?_, ?_, ?_, ?_, ?_, ?_⟩
  · intro p tx hm
    rcases (hmem p tx).mp hm with hold | ⟨hp, htx⟩
    · exact hs.principal_eq p tx hold
    · rw [htx, hp]
  · intro p tx hm
    rcases (hmem p tx).mp hm with hold | ⟨hp, _⟩
    · exact hs.principal_nz p tx hold
    · rw [hp]; exact hsnz
  · intro p tx hm
    rcases (hmem p tx).mp hm with hold | ⟨_, htx⟩
    · exact hs.token_wf p tx hold
    · rw [htx]; exact ⟨hlen, hlen64⟩
  · intro t0 hflag
    by_cases ht0 : t0 = t
    · subst ht0
      exact ⟨sender, newTx, (hmem sender newTx).mpr (Or.inr ⟨rfl, rfl⟩), rfl⟩
    · rw [show (logPost s sender t ty am dh ip ts).tokenExists t0 =
          s.tokenExists t0 from Function.update_noteq ht0 .. ] at hflag
      obtain ⟨p, tx, hm, htx⟩ := hs.flag_sound t0 hflag
      exact ⟨p, tx, (hmem p tx).mpr (Or.inl hm), htx⟩
  · intro p tx hm
    rcases (hmem p tx).mp hm with hold | ⟨_, htx⟩
    · have := hs.flag_complete p tx hold
      show Function.update s.tokenExists t true tx.tokenId = true
      rw [Function.update_noteq (hold_ne_t p tx hold)]
      exact this
    · rw [htx]
      exact Function.update_same ..
  · intro p tx hm
    rcases (hmem p tx).mp hm with hold | ⟨hp, htx⟩
    · show Function.update s.tokenToSME t sender tx.tokenId = p
      rw [Function.update_noteq (hold_ne_t p tx hold)]
      exact hs.owner_idx p tx hold
    · rw [htx, hp]
      exact Function.update_same ..
  · intro p
    by_cases hp : p = sender
    · rw [hp]
      show ((Function.update s.auditTrails sender
        (s.auditTrails sender ++ [newTx])) sender).Pairwise _
      rw [Function.update_same]
      rw [List.pairwise_append]
      refine ⟨hs.nodup_within sender, List.pairwise_singleton _ _, ?_⟩
      intro a ha b hb
      rw [List.mem_singleton.mp hb]
      intro hcontra
      exact hold_ne_t sender a ha hcontra
    · show ((Function.update s.auditTrails sender
        (s.auditTrails sender ++ [newTx])) p).Pairwise _
      rw [Function.update_noteq hp]
      exact hs.nodup_within p
  · intro p q tx txq hpq hmp hmq
    rcases (hmem p tx).mp hmp with holdp | ⟨hp, htxp⟩ <;>
      rcases (hmem q txq).mp hmq with holdq | ⟨hq, htxq⟩
    · exact hs.nodup_across p q tx txq hpq holdp holdq
    · rw [htxq]
      intro hcontra
      exact hold_ne_t p tx holdp hcontra
    · rw [htxp]
      intro hcontra
      exact hold_ne_t q txq holdq hcontra.symm
    · exact absurd (hp.trans hq.symm) hpq
  · intro p
    by_cases hp : p = sender
    · rw [hp]
      show Function.update s.transactionCounts sender _ sender =
        ((Function.update s.auditTrails sender (s.auditTrails sender ++ [newTx])) sender).length
      rw [Function.update_same, Function.update_same, List.length_append,
        hs.count_eq sender]
      rfl
    · show Function.update s.transactionCounts sender _ p =
        ((Function.update s.auditTrails sender (s.auditTrails sender ++ [newTx])) p).length
      rw [Function.update_noteq hp, Function.update_noteq hp]
      exact hs.count_eq p
  · intro S hS
    have hmemS : sender ∈ S := by
      refine hS sender ?_
      show Function.update s.transactionCounts sender (s.transactionCounts sender + 1) sender ≠ 0
      rw [Function.update_same]
      omega
    have hSold : ∀ p, s.transactionCounts p ≠ 0 → p ∈ S := by
      intro p hp
      refine hS p ?_
      by_cases hps : p = sender
      · subst hps
        show Function.update s.transactionCounts p (s.transactionCounts p + 1) p ≠ 0
        rw [Function.update_same]
        omega
      · show Function.update s.transactionCounts sender (s.transactionCounts sender + 1) p ≠ 0
        rw [Function.update_noteq hps]
        exact hp
    show s.totalTransactions + 1 =
      S.sum (Function.update s.transactionCounts sender (s.transactionCounts sender + 1))
    rw [Finset.sum_update_of_mem hmemS, hs.total_eq S hSold,
      ← Finset.sum_erase_add S s.transactionCounts hmemS,
      Finset.sdiff_singleton_eq_erase]
    omega

theorem inv_step {s : AuditState} (hs : Inv s) (op : Op) : Inv (step s op) := by
  cases op with
  | log sender t ty am dh ip ts =>
      simp only [step]
      split
      · rename_i r s' b heq
        obtain ⟨h1, h2, h3, h4, h5, h6, h7, h8, h9, hb, hpost⟩ :=
          logTransaction_ok_inv heq
        rw [hpost]
        exact inv_logPost hs h1 h3 h4 h6
      · exact hs
  | authorize sender sme status =>
      simp only [step]
      split
      · rename_i s' heq
        unfold authorizeSME at heq
        split_ifs at heq with ho hz
        simp only [Except.ok.injEq] at heq
        rw [← heq]
        refine inv_congr hs rfl rfl rfl rfl rfl ?_
        show Function.update s.authorizedSMEs sme status 0 = false
        rw [Function.update_noteq (Ne.symm hz)]
        exact hs.zero_unauth
      · exact hs
  | batchAuthorize sender smes statuses =>
      simp only [step]
      split
      · rename_i s' heq
        unfold batchAuthorizeSMEs at heq
        split_ifs at heq with ho hl he
        obtain ⟨f1, f2, f3, f4, f5, f6, f7, f8⟩ := batchLoop_ok_frame heq
        exact inv_congr hs f2 f3 f4 f5 f6 (f8 hs.zero_unauth)
      · exact hs
  | pauseOp sender =>
      simp only [step]
      split
      · rename_i s' heq
        unfold pause at heq
        split_ifs at heq with ho hp
        simp only [Except.ok.injEq] at heq
        rw [← heq]
        exact inv_congr hs rfl rfl rfl rfl rfl hs.zero_unauth
      · exact hs
  | unpauseOp sender =>
      simp only [step]
      split
      · rename_i s' heq
        unfold unpause at heq
        split_ifs at heq with ho hp
        simp only [Except.ok.injEq] at heq
        rw [← heq]
        exact inv_congr hs rfl rfl rfl rfl rfl hs.zero_unauth
      · exact hs

theorem inv_reachable {deployer : Addr} {s : AuditState}
    (hd : deployer ≠ 0) (hr : Reachable deployer s) : Inv s := by
  induction hr with
  | init => exact inv_init hd
  | next op _ ih => exact inv_step ih op

/-! ### Small step and read characterizations -/

theorem step_log_error {s : AuditState} {sender : Addr} {t ty : Bytes}
    {am dh : Nat} {ip : Bytes} {ts : Nat} {e : Err}
    (h : logTransaction s sender t ty am dh ip ts = .error e) :
    step s (.log sender t ty am dh ip ts) = s := by
  simp only [step, h]

theorem step_batch_error {s : AuditState} {sender : Addr}
    {smes : List Addr} {statuses : List Bool} {e : Err}
    (h : batchAuthorizeSMEs s sender smes statuses = .error e) :
    step s (.batchAuthorize sender smes statuses) = s := by
  simp only [step, h]

theorem step_pause_of_unpaused {s : AuditState} (h : s.paused = false) :
    step s (.pauseOp s.owner) = { s with paused := true } := by
  simp only [step, pause, if_pos rfl, h]
  simp

theorem set_unpaused_eq_self {s : AuditState} (h : s.paused = false) :
    ({ s with paused := false } : AuditState) = s := by
  cases s
  simp only at h
  rw [h]

theorem verifyToken_checks_pass {s : AuditState} {t : Bytes} {a : Addr}
    (h1 : t.length ≠ 0) (h2 : t.length ≤ 64) (h3 : a ≠ 0) :
    verifyToken s t a = match findToken (s.auditTrails a) t with
      | some tx => .ok (true, tx)
      | none => .ok (false, emptyTransaction) := by
  unfold verifyToken
  rw [if_neg h1, if_neg (by omega : ¬ t.length > 64), if_neg h3]

theorem verifyToken_ok_false {s : AuditState} {t : Bytes} {a : Addr} {tx0 : Transaction}
    (h : verifyToken s t a = .ok (false, tx0)) :
    t.length ≠ 0 ∧ t.length ≤ 64 ∧ a ≠ 0 ∧
    findToken (s.auditTrails a) t = none ∧ tx0 = emptyTransaction := by
  unfold verifyToken at h
  split_ifs at h with h1 h2 h3
  cases hf : findToken (s.auditTrails a) t with
  | some tx =>
      rw [hf] at h
      simp only [Except.ok.injEq, Prod.mk.injEq] at h
      cases h.1
  | none =>
      rw [hf] at h
      simp only [Except.ok.injEq, Prod.mk.injEq] at h
      exact ⟨h1, by omega, h3, rfl, h.2.symm⟩

theorem batchLoop_error_of_zero {l : List (Addr × Bool)} :
    ∀ s : AuditState, 0 ∈ l.map Prod.fst → ∃ e, batchLoop s l = .error e := by
  induction l with
  | nil => intro s h; simp at h
  | cons hd tl ih =>
      intro s h
      obtain ⟨a, b⟩ := hd
      by_cases ha : a = 0
      · exact ⟨.invalidSMEAddress, by simp [batchLoop, ha]⟩
      · simp only [batchLoop, if_neg ha]
        apply ih
        simp only [List.map_cons, List.mem_cons] at h
        rcases h with h0 | h0
        · exact absurd h0.symm ha
        · simpa using h0

theorem applyUpdates_get {smes : List Addr} :
    ∀ {statuses : List Bool} (f : Addr → Bool), smes.Nodup →
    ∀ (i : Nat) (hi : i < smes.length) (hj : i < statuses.length),
    applyUpdates f (smes.zip statuses) (smes.get ⟨i, hi⟩) = statuses.get ⟨i, hj⟩ := by
  induction smes with
  | nil => intro statuses f _ i hi; exact absurd hi (by simp)
  | cons a rest ih =>
      intro statuses f hnd i hi hj
      cases statuses with
      | nil => exact absurd hj (by simp)
      | cons b stail =>
          simp only [List.zip_cons_cons, applyUpdates]
          cases i with
          | zero =>
              show applyUpdates (Function.update f a b) (rest.zip stail) a = b
              rw [applyUpdates_not_mem]
              · exact Function.update_same ..
              · intro ab hab hcontra
                have hmem := (List.of_mem_zip hab).1
                rw [hcontra] at hmem
                exact (List.nodup_cons.mp hnd).1 hmem
          | succ n =>
              show applyUpdates (Function.update f a b) (rest.zip stail)
                  (rest.get ⟨n, _⟩) = stail.get ⟨n, _⟩
              exact ih _ (List.nodup_cons.mp hnd).2 n _ _

/-! ### The claims -/

/-- C1: in every reachable state, at most one `Transaction` record exists
per `tokenId` — no trail holds two records with the same `tokenId`, and
records of different principals never share a `tokenId` — and any
`logTransaction` whose `tokenId` equals that of a committed record is
rejected, for every caller (different principal or not, the original
authorization possibly revoked, since the state quantification covers
states after any deauthorization). -/
theorem tokenId_globally_unique_c1 {deployer : Addr} {s : AuditState}
    (hd : deployer ≠ 0) (hr : Reachable deployer s) :
    (∀ p, (s.auditTrails p).Pairwise fun a b => a.tokenId ≠ b.tokenId) ∧
    (∀ p q tx txb, tx ∈ s.auditTrails p → txb ∈ s.auditTrails q →
      tx.tokenId = txb.tokenId → p = q ∧ tx = txb) ∧
    (∀ sender t ty2 am dh ip ts p tx, tx ∈ s.auditTrails p → tx.tokenId = t →
      ∃ e, logTransaction s sender t ty2 am dh ip ts = .error e) := by
  have hi := inv_reachable hd hr
  refine ⟨hi.nodup_within, ?_, ?_⟩
  · intro p q tx txb hmp hmq htok
    by_cases hpq : p = q
    · subst hpq
      refine ⟨rfl, ?_⟩
      by_cases htxy : tx = txb
      · exact htxy
      · have hsymm : Symmetric fun a b : Transaction => a.tokenId ≠ b.tokenId :=
          fun x y hxy he => hxy he.symm
        exact absurd htok
          (List.Pairwise.forall hsymm (hi.nodup_within p) hmp hmq htxy)
    · exact absurd htok (hi.nodup_across p q tx txb hpq hmp hmq)
  · intro sender t ty2 am dh ip ts p tx hm ht
    have hflag : s.tokenExists t = true := ht ▸ hi.flag_complete p tx hm
    unfold logTransaction
    split_ifs <;> exact ⟨_, rfl⟩

theorem tokenId_globally_unique_c1_witness :
    (s1.auditTrails 1).Pairwise (fun a b => a.tokenId ≠ b.tokenId) :=
  (tokenId_globally_unique_c1 (by decide)
    (Reachable.next (Op.log 1 [84] [80] 100 5 [81] 0) Reachable.init)).1 1

/-- C2: a rejected `logTransaction` (any revert reason) leaves the entire
contract state — trails, token index, authorization flags, counters,
total, pause flag and event log — exactly unchanged. -/
theorem rejected_append_atomic_c2 {s : AuditState} {sender : Addr}
    {t ty : Bytes} {am dh : Nat} {ip : Bytes} {ts : Nat} {e : Err}
    (h : logTransaction s sender t ty am dh ip ts = .error e) :
    step s (.log sender t ty am dh ip ts) = s :=
  step_log_error h

theorem rejected_append_atomic_c2_witness :
    step (initState 1) (Op.log 2 [84] [80] 100 5 [81] 0) = initState 1 :=
  rejected_append_atomic_c2 (e := .notAuthorizedSME) rfl

/-- C3: in every reachable state, `transactionCounts[p]` equals the number
of committed records whose `principal` (smeAddress) field is `p` — those
in `p`'s own trail, no other trail holding any — and `totalTransactions`
equals the sum of `transactionCounts` over any finite set covering all
principals with a nonzero count.  Reachability quantifies over arbitrary
sequences of the five mutating operations, so each preserves this. -/
theorem counter_consistency_c3 {deployer : Addr} {s : AuditState}
    (hd : deployer ≠ 0) (hr : Reachable deployer s) :
    (∀ p, s.transactionCounts p =
      (s.auditTrails p).countP fun tx => decide (tx.smeAddress = p)) ∧
    (∀ p q, p ≠ q →
      ((s.auditTrails q).countP fun tx => decide (tx.smeAddress = p)) = 0) ∧
    (∀ S : Finset Addr, (∀ p, s.transactionCounts p ≠ 0 → p ∈ S) →
      s.totalTransactions = S.sum s.transactionCounts) := by
  have hi := inv_reachable hd hr
  refine ⟨?_, ?_, hi.total_eq⟩
  · intro p
    rw [hi.count_eq p]
    symm
    rw [List.countP_eq_length]
    intro tx hm
    simp [hi.principal_eq p tx hm]
  · intro p q hpq
    rw [List.countP_eq_zero]
    intro tx hm
    simp [hi.principal_eq q tx hm, Ne.symm hpq]

theorem counter_consistency_c3_witness :
    s1.transactionCounts 1 =
      (s1.auditTrails 1).countP (fun tx => decide (tx.smeAddress = 1)) :=
  (counter_consistency_c3 (by decide)
    (Reachable.next (Op.log 1 [84] [80] 100 5 [81] 0) Reachable.init)).1 1

/-- C4: `verifyDataIntegrity` composes `verifyToken`: it answers `true`
only if a record with the given `tokenId` exists in the principal's trail
and that record's `dataHash` equals `expectedHash`; and whenever
`verifyToken` reports the token absent it never answers `true` — every
answer it gives is `false` (for a nonzero `expectedHash` it does answer
`false`; a zero `expectedHash` is rejected by its own input check). -/
theorem verifyDataIntegrity_correct_c4 (s : AuditState) (t : Bytes) (a : Addr)
    (h : Nat) :
    (verifyDataIntegrity s t a h = .ok true →
      ∃ tx, tx ∈ s.auditTrails a ∧ tx.tokenId = t ∧ tx.dataHash = h) ∧
    (∀ tx0, verifyToken s t a = .ok (false, tx0) →
      (∀ b, verifyDataIntegrity s t a h = .ok b → b = false) ∧
      (h ≠ 0 → verifyDataIntegrity s t a h = .ok false)) := by
  constructor
  · intro hok
    unfold verifyDataIntegrity at hok
    split_ifs at hok with h1 h2 h3 h4
    rw [verifyToken_checks_pass h1 (by omega) h3] at hok
    cases hf : findToken (s.auditTrails a) t with
    | some tx =>
        rw [hf] at hok
        simp only [if_pos rfl] at hok
        refine ⟨tx, (findToken_mem hf).1, (findToken_mem hf).2, ?_⟩
        simpa using hok
    | none =>
        rw [hf] at hok
        simp at hok
  · intro tx0 hvt
    obtain ⟨h1, h2, h3, hf, _⟩ := verifyToken_ok_false hvt
    by_cases h4 : h = 0
    · constructor
      · intro b hb
        unfold verifyDataIntegrity at hb
        rw [if_neg h1, if_neg (by omega : ¬ t.length > 64), if_neg h3,
          if_pos h4] at hb
        cases hb
      · intro hcontra
        exact absurd h4 hcontra
    · have : verifyDataIntegrity s t a h = .ok false := by
        unfold verifyDataIntegrity
        rw [if_neg h1, if_neg (by omega : ¬ t.length > 64), if_neg h3,
          if_neg h4, hvt]
        simp
      exact ⟨fun b hb => by rw [this] at hb; cases hb; rfl, fun _ => this⟩

theorem verifyDataIntegrity_correct_c4_witness :
    verifyDataIntegrity s1 [85] 1 7 = .ok false :=
  (((verifyDataIntegrity_correct_c4 s1 [85] 1 7).2 emptyTransaction rfl).2
    (by decide))

/-- C5 (amended): the precondition order of `logTransaction` follows the
source's modifier order — authorized caller FIRST, then not-paused, then
tokenId well-formedness, then `amount > 0`, then (in the body) tokenId
unused, nonzero hash, nonempty type, nonempty pointer — each earliest
violated precondition determining the revert reason; when every check
passes the append succeeds. -/
theorem append_precondition_order_c5 (s : AuditState) (sender : Addr)
    (t ty : Bytes) (am dh : Nat) (ip : Bytes) (ts : Nat) :
    (s.authorizedSMEs sender = false →
      logTransaction s sender t ty am dh ip ts = .error .notAuthorizedSME) ∧
    (s.authorizedSMEs sender = true → s.paused = true →
      logTransaction s sender t ty am dh ip ts = .error .pausedErr) ∧
    (s.authorizedSMEs sender = true → s.paused = false → t.length = 0 →
      logTransaction s sender t ty am dh ip ts = .error .tokenIdEmpty) ∧
    (s.authorizedSMEs sender = true → s.paused = false → t.length ≠ 0 →
      t.length > 64 →
      logTransaction s sender t ty am dh ip ts = .error .tokenIdTooLong) ∧
    (s.authorizedSMEs sender = true → s.paused = false → t.length ≠ 0 →
      t.length ≤ 64 → am = 0 →
      logTransaction s sender t ty am dh ip ts = .error .amountZero) ∧
    (s.authorizedSMEs sender = true → s.paused = false → t.length ≠ 0 →
      t.length ≤ 64 → am ≠ 0 → s.tokenExists t = true →
      logTransaction s sender t ty am dh ip ts = .error .tokenAlreadyExists) ∧
    (s.authorizedSMEs sender = true → s.paused = false → t.length ≠ 0 →
      t.length ≤ 64 → am ≠ 0 → s.tokenExists t = false → dh = 0 →
      logTransaction s sender t ty am dh ip ts = .error .invalidDataHash) ∧
    (s.authorizedSMEs sender = true → s.paused = false → t.length ≠ 0 →
      t.length ≤ 64 → am ≠ 0 → s.tokenExists t = false → dh ≠ 0 →
      ty.length = 0 →
      logTransaction s sender t ty am dh ip ts = .error .transactionTypeRequired) ∧
    (s.authorizedSMEs sender = true → s.paused = false → t.length ≠ 0 →
      t.length ≤ 64 → am ≠ 0 → s.tokenExists t = false → dh ≠ 0 →
      ty.length ≠ 0 → ip.length = 0 →
      logTransaction s sender t ty am dh ip ts = .error .ipfsHashRequired) ∧
    (s.authorizedSMEs sender = true → s.paused = false → t.length ≠ 0 →
      t.length ≤ 64 → am ≠ 0 → s.tokenExists t = false → dh ≠ 0 →
      ty.length ≠ 0 → ip.length ≠ 0 →
      logTransaction s sender t ty am dh ip ts =
        .ok (logPost s sender t ty am dh ip ts, true)) := by
  refine ⟨?_, ?_, ?_, ?_, ?_, ?_, ?_, ?_, ?_, ?_⟩
  · intro h1
    simp [logTransaction, h1]
  · intro h1 h2
    simp [logTransaction, h1, h2]
  · intro h1 h2 h3
    simp [logTransaction, h1, h2, h3]
  · intro h1 h2 h3 h4
    simp [logTransaction, h1, h2, h3, h4]
  · intro h1 h2 h3 h4 h5
    have h46 : ¬ t.length > 64 := by omega
    simp [logTransaction, h1, h2, h3, h46, h5]
  · intro h1 h2 h3 h4 h5 h6
    have h46 : ¬ t.length > 64 := by omega
    simp [logTransaction, h1, h2, h3, h46, h5, h6]
  · intro h1 h2 h3 h4 h5 h6 h7
    have h46 : ¬ t.length > 64 := by omega
    simp [logTransaction, h1, h2, h3, h46, h5, h6, h7]
  · intro h1 h2 h3 h4 h5 h6 h7 h8
    have h46 : ¬ t.length > 64 := by omega
    simp [logTransaction, h1, h2, h3, h46, h5, h6, h7, h8]
  · intro h1 h2 h3 h4 h5 h6 h7 h8 h9
    have h46 : ¬ t.length > 64 := by omega
    simp [logTransaction, h1, h2, h3, h46, h5, h6, h7, h8, h9]
  · intro h1 h2 h3 h4 h5 h6 h7 h8 h9
    exact logTransaction_ok_of_checks ts h1 h2 h3 h4 h5 h6 h7 h8 h9

/-- C5 counterexample: in the concrete paused deployment, an unauthorized
caller is rejected with the authorization reason, not the paused reason —
refuting the claimed paused-before-authorization check order. -/
theorem append_precondition_order_c5_counterexample :
    sPaused.paused = true ∧ sPaused.authorizedSMEs 2 = false ∧
    logTransaction sPaused 2 [84] [80] 100 5 [81] 0 =
      .error .notAuthorizedSME ∧
    Err.notAuthorizedSME ≠ Err.pausedErr :=
  ⟨rfl, rfl, rfl, by decide⟩

theorem append_precondition_order_c5_witness :
    logTransaction (initState 1) 2 [84] [80] 100 5 [81] 0 =
      .error .notAuthorizedSME :=
  (append_precondition_order_c5 (initState 1) 2 [84] [80] 100 5 [81] 0).1 rfl

/-- C6: `authorizeSME(P, false)` by the owner succeeds for nonzero `P`,
flips only `P`'s authorization flag (plus the emitted event), leaves
trails, token index, counters and pause flag untouched, and every read
operation answers afterwards exactly as before. -/
theorem deauthorization_frame_c6 (s : AuditState) (P : Addr) (hP : P ≠ 0) :
    authorizeSME s s.owner P false = .ok (authPost s P false) ∧
    (authPost s P false).authorizedSMEs P = false ∧
    (∀ q, q ≠ P →
      (authPost s P false).authorizedSMEs q = s.authorizedSMEs q) ∧
    (authPost s P false).auditTrails = s.auditTrails ∧
    (authPost s P false).tokenExists = s.tokenExists ∧
    (authPost s P false).tokenToSME = s.tokenToSME ∧
    (authPost s P false).transactionCounts = s.transactionCounts ∧
    (authPost s P false).totalTransactions = s.totalTransactions ∧
    (authPost s P false).paused = s.paused ∧
    (∀ a, getAuditTrail (authPost s P false) a = getAuditTrail s a) ∧
    (∀ t a, verifyToken (authPost s P false) t a = verifyToken s t a) ∧
    (∀ t, getTransactionByTokenId (authPost s P false) t =
      getTransactionByTokenId s t) ∧
    (∀ t a h, verifyDataIntegrity (authPost s P false) t a h =
      verifyDataIntegrity s t a h) := by
  refine ⟨?_, Function.update_same .., fun q hq => Function.update_noteq hq .., rfl,
    rfl, rfl, rfl, rfl, rfl, fun a => rfl, fun t a => rfl, fun t => rfl,
    fun t a h => rfl⟩
  unfold authorizeSME
  rw [if_pos rfl, if_neg hP]
  rfl

theorem deauthorization_frame_c6_witness :
    authorizeSME (initState 1) 1 2 false = .ok (authPost (initState 1) 2 false) ∧
    (authPost (initState 1) 2 false).authorizedSMEs 2 = false :=
  ⟨(deauthorization_frame_c6 (initState 1) 2 (by decide)).1,
    (deauthorization_frame_c6 (initState 1) 2 (by decide)).2.1⟩

/-- C7 (amended): while paused, every `logTransaction` fails — with the
paused reason when the caller is authorized, and with the (earlier)
authorization reason otherwise — and leaves the state unchanged; pausing
changes no read result; and unpausing right after pausing restores the
exact pre-pause state, so appends behave as before the pause. -/
theorem pause_gating_c7 (s : AuditState) (c : Addr) (t ty : Bytes)
    (am dh : Nat) (ip : Bytes) (ts : Nat) (a : Addr) (h : Nat) :
    (s.paused = true →
      (∃ e, logTransaction s c t ty am dh ip ts = .error e) ∧
      step s (.log c t ty am dh ip ts) = s) ∧
    (s.paused = true → s.authorizedSMEs c = true →
      logTransaction s c t ty am dh ip ts = .error .pausedErr) ∧
    (s.paused = false →
      getAuditTrail (step s (.pauseOp s.owner)) a = getAuditTrail s a ∧
      verifyToken (step s (.pauseOp s.owner)) t a = verifyToken s t a ∧
      getTransactionByTokenId (step s (.pauseOp s.owner)) t =
        getTransactionByTokenId s t ∧
      verifyDataIntegrity (step s (.pauseOp s.owner)) t a h =
        verifyDataIntegrity s t a h) ∧
    (s.paused = false →
      step (step s (.pauseOp s.owner)) (.unpauseOp s.owner) = s) := by
  refine ⟨?_, ?_, ?_, ?_⟩
  · intro hp
    have herr : ∃ e, logTransaction s c t ty am dh ip ts = .error e := by
      by_cases hauth : s.authorizedSMEs c = true
      · exact ⟨.pausedErr, by simp [logTransaction, hauth, hp]⟩
      · exact ⟨.notAuthorizedSME, by simp [logTransaction, hauth]⟩
    obtain ⟨e, he⟩ := herr
    exact ⟨⟨e, he⟩, step_log_error he⟩
  · intro hp hauth
    simp [logTransaction, hauth, hp]
  · intro hp
    rw [step_pause_of_unpaused hp]
    exact ⟨rfl, rfl, rfl, rfl⟩
  · intro hp
    rw [step_pause_of_unpaused hp]
    have hun : unpause { s with paused := true } s.owner =
        .ok { s with paused := false } := by
      unfold unpause
      rw [if_pos rfl]
      rfl
    simp only [step, hun]
    exact set_unpaused_eq_self hp

/-- C7 counterexample: in the concrete paused deployment, an unauthorized
caller's append fails with the authorization reason, not with the
system-paused reason the claim asserts for every caller. -/
theorem pause_gating_c7_counterexample :
    sPaused.paused = true ∧ sPaused.authorizedSMEs 3 = false ∧
    logTransaction sPaused 3 [84] [80] 100 5 [81] 0 =
      .error .notAuthorizedSME ∧
    Err.notAuthorizedSME ≠ Err.pausedErr :=
  ⟨rfl, rfl, rfl, by decide⟩

theorem pause_gating_c7_witness :
    step (step s1 (.pauseOp 1)) (.unpauseOp 1) = s1 :=
  (pause_gating_c7 s1 1 [84] [80] 100 5 [81] 0 1 0).2.2.2 rfl

/-- C8: `batchAuthorizeSMEs` is all-or-nothing: with mismatched lengths,
empty lists, or any zero address listed, it reverts and no flag changes;
otherwise (called by the owner) it applies the i-th status to the i-th
principal sequentially and appends one `SMEAuthorized` event per entry. -/
theorem batchAuthorize_all_or_nothing_c8 (s : AuditState) (sender : Addr)
    (smes : List Addr) (statuses : List Bool) :
    ((smes.length ≠ statuses.length ∨ smes.length = 0 ∨ 0 ∈ smes) →
      (∃ e, batchAuthorizeSMEs s sender smes statuses = .error e) ∧
      step s (.batchAuthorize sender smes statuses) = s) ∧
    (sender = s.owner → smes.length = statuses.length → smes.length ≠ 0 →
      (∀ a ∈ smes, a ≠ 0) →
      batchAuthorizeSMEs s sender smes statuses = .ok { s with
        authorizedSMEs := applyUpdates s.authorizedSMEs (smes.zip statuses),
        events := s.events ++
          (smes.zip statuses).map fun ab => Event.smeAuthorized ab.1 ab.2 } ∧
      ((smes.zip statuses).map fun ab => Event.smeAuthorized ab.1 ab.2).length
        = smes.length ∧
      (smes.Nodup →
        ∀ (i : Nat) (hi : i < smes.length) (hj : i < statuses.length),
        applyUpdates s.authorizedSMEs (smes.zip statuses) (smes.get ⟨i, hi⟩)
          = statuses.get ⟨i, hj⟩)) := by
  constructor
  · intro hbad
    have herr : ∃ e, batchAuthorizeSMEs s sender smes statuses = .error e := by
      by_cases ho : sender = s.owner
      · by_cases hlen : smes.length ≠ statuses.length
        · exact ⟨.arraysLengthMismatch, by simp [batchAuthorizeSMEs, ho, hlen]⟩
        · push_neg at hlen
          by_cases hemp : smes.length = 0
          · refine ⟨.emptyArrays, ?_⟩
            unfold batchAuthorizeSMEs
            rw [if_pos ho, if_neg (by simp [hlen]), if_pos hemp]
          · have hzero : 0 ∈ smes := by
              rcases hbad with hb | hb | hb
              · exact absurd hlen hb
              · exact absurd hb hemp
              · exact hb
            obtain ⟨e, he⟩ := batchLoop_error_of_zero (l := smes.zip statuses) s
              (by rw [List.map_fst_zip smes statuses (le_of_eq hlen)]; exact hzero)
            refine ⟨e, ?_⟩
            unfold batchAuthorizeSMEs
            rw [if_pos ho, if_neg (by simp [hlen]), if_neg hemp]
            exact he
      · exact ⟨.notOwner, by simp [batchAuthorizeSMEs, ho]⟩
    obtain ⟨e, he⟩ := herr
    exact ⟨⟨e, he⟩, step_batch_error he⟩
  · intro ho hlen hne hnz
    refine ⟨?_, ?_, fun hnd i hi hj => applyUpdates_get _ hnd i hi hj⟩
    · unfold batchAuthorizeSMEs
      rw [if_pos ho, if_neg (by simp [hlen]), if_neg hne]
      exact batchLoop_ok_of_nonzero s fun ab hab =>
        hnz ab.1 (List.of_mem_zip hab).1
    · rw [List.length_map, List.length_zip, hlen, Nat.min_self]

theorem batchAuthorize_all_or_nothing_c8_witness :
    batchAuthorizeSMEs (initState 1) 1 [2, 3] [true, false] =
      .ok { initState 1 with
        authorizedSMEs :=
          applyUpdates (initState 1).authorizedSMEs ([2, 3].zip [true, false]),
        events := (initState 1).events ++
          ([2, 3].zip [true, false]).map
            fun ab => Event.smeAuthorized ab.1 ab.2 } :=
  ((batchAuthorize_all_or_nothing_c8 (initState 1) 1 [2, 3] [true, false]).2
    rfl rfl (by decide) (by decide)).1

/-- C9 (amended): in every reachable state `tokenExists[t]` is set exactly
when a (unique) record with tokenId `t` exists, `tokenToSME[t]` is that
record's principal, and `getTransactionByTokenId` returns `(true, r)` for
the unique record `r`; for a WELL-FORMED (1–64 byte) tokenId with no
record it returns `(false, empty)` — a malformed tokenId instead reverts
in the `validTokenId` modifier. -/
theorem reverse_index_consistent_c9 {deployer : Addr} {s : AuditState}
    (hd : deployer ≠ 0) (hr : Reachable deployer s) :
    (∀ t, s.tokenExists t = true ↔
      ∃ p tx, tx ∈ s.auditTrails p ∧ tx.tokenId = t) ∧
    (∀ p tx, tx ∈ s.auditTrails p → s.tokenToSME tx.tokenId = p) ∧
    (∀ p tx, tx ∈ s.auditTrails p →
      getTransactionByTokenId s tx.tokenId = .ok (true, tx)) ∧
    (∀ t, t.length ≠ 0 → t.length ≤ 64 →
      (∀ p tx, tx ∈ s.auditTrails p → tx.tokenId ≠ t) →
      getTransactionByTokenId s t = .ok (false, emptyTransaction)) := by
  have hi := inv_reachable hd hr
  refine ⟨?_, hi.owner_idx, ?_, ?_⟩
  · intro t
    constructor
    · exact hi.flag_sound t
    · rintro ⟨p, tx, hm, htx⟩
      exact htx ▸ hi.flag_complete p tx hm
  · intro p tx hm
    obtain ⟨hl0, hl64⟩ := hi.token_wf p tx hm
    have hflag := hi.flag_complete p tx hm
    have howner := hi.owner_idx p tx hm
    have hpnz := hi.principal_nz p tx hm
    unfold getTransactionByTokenId
    rw [if_neg hl0, if_neg (by omega : ¬ tx.tokenId.length > 64), if_pos hflag,
      howner, verifyToken_checks_pass hl0 hl64 hpnz,
      findToken_unique (hi.nodup_within p) hm rfl]
  · intro t hl0 hl64 habs
    have hflag : s.tokenExists t = false := by
      cases hf : s.tokenExists t with
      | false => rfl
      | true =>
          obtain ⟨p, tx, hm, htx⟩ := hi.flag_sound t hf
          exact absurd htx (habs p tx hm)
    unfold getTransactionByTokenId
    rw [if_neg hl0, if_neg (by omega : ¬ t.length > 64),
      if_neg (by simp [hflag])]

/-- C9 counterexample: the empty tokenId has no record in the freshly
deployed state, yet `getTransactionByTokenId` reverts in `validTokenId`
instead of returning `(false, empty)` as the claim asserts for every
recordless tokenId. -/
theorem reverse_index_consistent_c9_counterexample :
    getTransactionByTokenId (initState 1) [] = .error .tokenIdEmpty ∧
    (Except.error Err.tokenIdEmpty : Except Err (Bool × Transaction)) ≠
      .ok (false, emptyTransaction) :=
  ⟨rfl, fun hcontra => Except.noConfusion hcontra⟩

theorem reverse_index_consistent_c9_witness :
    getTransactionByTokenId s1 [84] = .ok (true, tx84) :=
  (reverse_index_consistent_c9 (by decide)
    (Reachable.next (Op.log 1 [84] [80] 100 5 [81] 0) Reachable.init)).2.2.1 1
    tx84 (by decide)

/-- C10: the read operations validate their inputs and revert rather than
answer — `verifyToken` and `verifyDataIntegrity` revert for an empty or
over-64-byte tokenId and for the zero principal, and `verifyDataIntegrity`
also reverts for a zero expected hash; on well-formed inputs both return
an answer. -/
theorem read_input_validation_c10 (s : AuditState) (t : Bytes) (a : Addr)
    (h : Nat) :
    ((t.length = 0 ∨ t.length > 64 ∨ a = 0) →
      (∃ e, verifyToken s t a = .error e) ∧
      (∃ e, verifyDataIntegrity s t a h = .error e)) ∧
    (t.length ≠ 0 → t.length ≤ 64 → a ≠ 0 →
      verifyDataIntegrity s t a 0 = .error .invalidExpectedHash ∧
      (∃ v, verifyToken s t a = .ok v) ∧
      (h ≠ 0 → ∃ b, verifyDataIntegrity s t a h = .ok b)) := by
  constructor
  · intro hbad
    constructor
    · by_cases h1 : t.length = 0
      · exact ⟨.tokenIdEmpty, by unfold verifyToken; rw [if_pos h1]⟩
      · by_cases h2 : t.length > 64
        · exact ⟨.tokenIdTooLong, by unfold verifyToken; rw [if_neg h1, if_pos h2]⟩
        · have h3 : a = 0 := by
            rcases hbad with hb | hb | hb
            · exact absurd hb h1
            · exact absurd hb h2
            · exact hb
          exact ⟨.invalidSMEAddress,
            by unfold verifyToken; rw [if_neg h1, if_neg h2, if_pos h3]⟩
    · by_cases h1 : t.length = 0
      · exact ⟨.tokenIdEmpty, by unfold verifyDataIntegrity; rw [if_pos h1]⟩
      · by_cases h2 : t.length > 64
        · exact ⟨.tokenIdTooLong,
            by unfold verifyDataIntegrity; rw [if_neg h1, if_pos h2]⟩
        · have h3 : a = 0 := by
            rcases hbad with hb | hb | hb
            · exact absurd hb h1
            · exact absurd hb h2
            · exact hb
          exact ⟨.invalidSMEAddress,
            by unfold verifyDataIntegrity; rw [if_neg h1, if_neg h2, if_pos h3]⟩
  · intro h1 h2 h3
    refine ⟨?_, ?_, ?_⟩
    · unfold verifyDataIntegrity
      rw [if_neg h1, if_neg (by omega : ¬ t.length > 64), if_neg h3, if_pos rfl]
    · rw [verifyToken_checks_pass h1 h2 h3]
      cases hf : findToken (s.auditTrails a) t with
      | none => exact ⟨(false, emptyTransaction), rfl⟩
      | some tx => exact ⟨(true, tx), rfl⟩
    · intro hh
      unfold verifyDataIntegrity
      rw [if_neg h1, if_neg (by omega : ¬ t.length > 64), if_neg h3, if_neg hh,
        verifyToken_checks_pass h1 h2 h3]
      cases hf : findToken (s.auditTrails a) t with
      | none => exact ⟨false, rfl⟩
      | some tx => exact ⟨decide (tx.dataHash = h), rfl⟩

theorem read_input_validation_c10_witness :
    verifyDataIntegrity (initState 1) [84] 1 0 = .error .invalidExpectedHash :=
  ((read_input_validation_c10 (initState 1) [84] 1 0).2 (by decide) (by decide)
    (by decide)).1

end TokenAudit
